import Mathlib

/-!
Verification of the `imitation` behavioural-cloning trainer and reward nets.

Shallow embedding of `src/imitation/algorithms/bc.py` and
`src/imitation/rewards/reward_nets.py`.  Torch tensors are modelled as
`List ℚ` (one rational per tensor entry), batches of states/actions as lists,
and Python generators as fuel-indexed recursive functions.  Side-effecting
collaborators that do not influence the values under study (tqdm progress
display, `on_batch_end`/`on_epoch_end` callbacks, logging) are omitted from
the model; gradient bookkeeping (`detach`) is value-wise the identity and is
modelled as such.
-/

namespace Imitation

/-- Statistics dict yielded with each batch by
`EpochOrBatchIteratorWithProgress.__iter__` (bc.py lines 134-138). -/
structure IterStats where
  epoch_num : Nat
  batch_num : Nat
  samples_so_far : Nat
deriving Repr, DecidableEq

/-- The two modes of `EpochOrBatchIteratorWithProgress`: `use_epochs = true`
corresponds to `epochs n_epochs`, `use_epochs = false` to `batches n_batches`
(bc.py lines 85-92). -/
inductive IterMode where
  | epochs (n_epochs : Nat)
  | batches (n_batches : Nat)
deriving Repr, DecidableEq

/-- Result of draining the data loader once (one pass of the inner
`for batch in self.data_loader` loop, bc.py lines 128-147):
`raised` models the `assert batch_size > 0` failure, `stop` the
`return` taken when `batch_num >= n_batches` in batch mode, and `done` a
completed drain carrying the updated `batch_num` and `samples_so_far`. -/
inductive EpochRes (α : Type) where
  | raised (ys : List (α × IterStats))
  | stop (ys : List (α × IterStats))
  | done (ys : List (α × IterStats)) (batch_num : Nat) (samples_so_far : Nat)
deriving Repr, DecidableEq

/-- One drain of the data loader (bc.py lines 128-147).  `sz b` models
`len(batch["obs"])`; `target = some n_batches` in batch mode and `none` in
epoch mode.  Each batch increments `batch_num`, accumulates
`samples_so_far`, and is yielded with its stats; in batch mode the iterator
returns as soon as `batch_num >= n_batches` after a yield. -/
def drainEpoch {α : Type} (sz : α → Nat) (target : Option Nat) (epoch_num : Nat) :
    List α → Nat → Nat → EpochRes α
  | [], bn, s => .done [] bn s
  | b :: rest, bn, s =>
    let bn' := bn + 1
    if sz b = 0 then .raised []
    else
      let s' := s + sz b
      let y : α × IterStats := (b, ⟨epoch_num, bn', s'⟩)
      let stopNow : Bool := match target with
        | some nb => decide (nb ≤ bn')
        | none => false
      if stopNow then .stop [y]
      else
        match drainEpoch sz target epoch_num rest bn' s' with
        | .raised ys => .raised (y :: ys)
        | .stop ys => .stop (y :: ys)
        | .done ys bn2 s2 => .done (y :: ys) bn2 s2

/-- Outcome of iterating `EpochOrBatchIteratorWithProgress.__iter__`:
the list of `(batch, stats)` pairs yielded, ending with a normal `return`
(`ok`), an `AssertionError` (`err`), or fuel exhaustion (`fuelOut`, a
modelling artifact shown unreachable for sufficient fuel). -/
inductive RunRes (α : Type) where
  | ok (ys : List (α × IterStats))
  | err (ys : List (α × IterStats))
  | fuelOut (ys : List (α × IterStats))
deriving Repr, DecidableEq

/-- Prepend already-yielded pairs onto the outcome of the rest of the run. -/
def RunRes.consAll {α : Type} (ys : List (α × IterStats)) : RunRes α → RunRes α
  | .ok zs => .ok (ys ++ zs)
  | .err zs => .err (ys ++ zs)
  | .fuelOut zs => .fuelOut (ys ++ zs)

/-- The outer `while True` loop of `__iter__` (bc.py lines 124-163), one
fuel unit per epoch.  `data k` is the sequence of batches produced by the
`k`-th drain of `self.data_loader` (drains of a shuffled loader may differ).
After a drain: an empty drain raises (`AssertionError`, lines 148-153);
otherwise `epoch_num` is incremented and, in epoch mode, the loop returns
once `epoch_num >= n_epochs` (lines 158-163). -/
def runIter {α : Type} (sz : α → Nat) (mode : IterMode) (data : Nat → List α) :
    Nat → Nat → Nat → Nat → RunRes α
  | _, _, _, 0 => .fuelOut []
  | epoch_num, bn, s, fuel + 1 =>
    let target : Option Nat := match mode with
      | .batches nb => some nb
      | .epochs _ => none
    let eb := data epoch_num
    match drainEpoch sz target epoch_num eb bn s with
    | .raised ys => .err ys
    | .stop ys => .ok ys
    | .done ys bn' s' =>
      if eb.isEmpty then .err ys
      else
        match mode with
        | .epochs ne =>
          if ne ≤ epoch_num + 1 then .ok ys
          else RunRes.consAll ys (runIter sz mode data (epoch_num + 1) bn' s' fuel)
        | .batches _ => RunRes.consAll ys (runIter sz mode data (epoch_num + 1) bn' s' fuel)

/-- Fuel sufficient for the run to complete: in epoch mode the loop body
executes `max 1 n_epochs` times, in batch mode at most `n_batches + 1`
times (each completed epoch either raises or yields at least one batch). -/
def fuelFor : IterMode → Nat
  | .epochs ne => max 1 ne
  | .batches nb => nb + 1

/-- A full run of `EpochOrBatchIteratorWithProgress.__iter__` from the
initial state `samples_so_far = epoch_num = batch_num = 0`
(bc.py lines 104-106). -/
def EpochOrBatchIteratorWithProgress.run {α : Type} (sz : α → Nat) (mode : IterMode)
    (data : Nat → List α) : RunRes α :=
  runIter sz mode data 0 0 0 (fuelFor mode)

/-- The argument validation of `EpochOrBatchIteratorWithProgress.__init__`
(bc.py lines 85-92): returns `use_epochs` on success, raises `ValueError`
(the spec's `ConfigurationError`) when both or neither of
`n_epochs`/`n_batches` is given. -/
def EpochOrBatchIteratorWithProgress.initUseEpochs (n_epochs n_batches : Option Nat) :
    Except String Bool :=
  if n_epochs.isSome && !n_batches.isSome then Except.ok true
  else if !n_epochs.isSome && n_batches.isSome then Except.ok false
  else Except.error "Must provide exactly one of n_epochs and n_batches arguments."

/-- Draining a loader whose batches are all non-empty, with no batch target
(epoch mode), yields every batch in order and advances `batch_num` by the
number of batches. -/
theorem drainEpoch_none_eq {α : Type} (sz : α → Nat) (en : Nat) :
    ∀ (batches : List α) (bn s : Nat), (∀ b ∈ batches, 0 < sz b) →
    ∃ ys s2, drainEpoch sz none en batches bn s = .done ys (bn + batches.length) s2
      ∧ ys.map Prod.fst = batches := by
  intro batches
  induction batches with
  | nil => exact fun bn s _ => ⟨[], s, by simp [drainEpoch], rfl⟩
  | cons b rest ih =>
    intro bn s hsz
    have hb : ¬ sz b = 0 := by have := hsz b (by simp); omega
    obtain ⟨ys, s2, heq, hmap⟩ := ih (bn + 1) (s + sz b) (fun x hx => hsz x (by simp [hx]))
    refine ⟨(b, ⟨en, bn + 1, s + sz b⟩) :: ys, s2, ?_, by simp [hmap]⟩
    simp only [drainEpoch, hb, if_false, heq, List.length_cons]
    have h1 : bn + 1 + rest.length = bn + (rest.length + 1) := by omega
    rw [h1]
    simp

/-- Draining with batch target `nb`, starting from `batch_num = bn < nb` and
all batch sizes positive: if the drain has at least `nb - bn` batches it
stops having brought `batch_num` exactly to `nb`; otherwise it completes,
yielding every batch. -/
theorem drainEpoch_some_spec {α : Type} (sz : α → Nat) (nb en : Nat) :
    ∀ (batches : List α) (bn s : Nat), (∀ b ∈ batches, 0 < sz b) → bn < nb →
    (nb ≤ bn + batches.length →
      ∃ ys, drainEpoch sz (some nb) en batches bn s = .stop ys ∧ bn + ys.length = nb)
    ∧ (bn + batches.length < nb →
      ∃ ys s2, drainEpoch sz (some nb) en batches bn s = .done ys (bn + batches.length) s2
        ∧ ys.length = batches.length) := by
  intro batches
  induction batches with
  | nil =>
    intro bn s _ hlt
    exact ⟨fun h => absurd h (by simp; omega), fun _ => ⟨[], s, by simp [drainEpoch], rfl⟩⟩
  | cons b rest ih =>
    intro bn s hsz hlt
    have hb : ¬ sz b = 0 := by have := hsz b (by simp); omega
    by_cases hstop : nb ≤ bn + 1
    · constructor
      · intro _
        refine ⟨[(b, ⟨en, bn + 1, s + sz b⟩)], ?_, by simp; omega⟩
        simp [drainEpoch, hb, hstop]
      · intro hc
        exact absurd hc (by simp; omega)
    · have ihr := ih (bn + 1) (s + sz b) (fun x hx => hsz x (by simp [hx])) (by omega)
      constructor
      · intro hge
        obtain ⟨ys, heq, hys⟩ := ihr.1 (by simp at hge; omega)
        refine ⟨(b, ⟨en, bn + 1, s + sz b⟩) :: ys, ?_, by simp; omega⟩
        simp [drainEpoch, hb, hstop, heq]
      · intro hlt2
        obtain ⟨ys, s2, heq, hys⟩ := ihr.2 (by simp at hlt2; omega)
        refine ⟨(b, ⟨en, bn + 1, s + sz b⟩) :: ys, s2, ?_, by simp [hys]⟩
        simp only [drainEpoch, hb, if_false, hstop, decide_eq_true_eq, if_neg, heq,
          List.length_cons]
        have h1 : bn + 1 + rest.length = bn + (rest.length + 1) := by omega
        rw [h1]

/-- A completed drain advances `batch_num` by exactly the number of batches
in the drain, for any target. -/
theorem drainEpoch_done_bn {α : Type} (sz : α → Nat) (target : Option Nat) (en : Nat) :
    ∀ (batches : List α) (bn s : Nat) (ys : List (α × IterStats)) (bn2 s2 : Nat),
    drainEpoch sz target en batches bn s = .done ys bn2 s2 → bn2 = bn + batches.length := by
  intro batches
  induction batches with
  | nil =>
    intro bn s ys bn2 s2 h
    simp only [drainEpoch, EpochRes.done.injEq] at h
    obtain ⟨-, h2, -⟩ := h
    simp
    omega
  | cons b rest ih =>
    intro bn s ys bn2 s2 h
    by_cases hb : sz b = 0
    · simp [drainEpoch, hb] at h
    · cases target with
      | none =>
        cases hrec : drainEpoch sz none en rest (bn + 1) (s + sz b) with
        | raised zs => simp [drainEpoch, hb, hrec] at h
        | stop zs => simp [drainEpoch, hb, hrec] at h
        | done zs bn3 s3 =>
          simp [drainEpoch, hb, hrec] at h
          have := ih (bn + 1) (s + sz b) zs bn3 s3 hrec
          obtain ⟨-, h2, -⟩ := h
          simp
          omega
      | some nb =>
        by_cases hstop : nb ≤ bn + 1
        · simp [drainEpoch, hb, hstop] at h
        · cases hrec : drainEpoch sz (some nb) en rest (bn + 1) (s + sz b) with
          | raised zs => simp [drainEpoch, hb, hstop, hrec] at h
          | stop zs => simp [drainEpoch, hb, hstop, hrec] at h
          | done zs bn3 s3 =>
            simp [drainEpoch, hb, hstop, hrec] at h
            have := ih (bn + 1) (s + sz b) zs bn3 s3 hrec
            obtain ⟨-, h2, -⟩ := h
            simp
            omega

/-- In batch mode, a drain that completes on a non-empty epoch implies the
batch target was still more than one yield away when the epoch began
(otherwise the first yield would have stopped the iterator). -/
theorem drainEpoch_some_done_lt {α : Type} (sz : α → Nat) (nb en : Nat)
    (b : α) (rest : List α) (bn s : Nat) (ys : List (α × IterStats)) (bn2 s2 : Nat)
    (h : drainEpoch sz (some nb) en (b :: rest) bn s = .done ys bn2 s2) : bn + 1 < nb := by
  by_cases hb : sz b = 0
  · simp [drainEpoch, hb] at h
  · by_cases hstop : nb ≤ bn + 1
    · simp [drainEpoch, hb, hstop] at h
    · omega

/-- Epoch mode terminates (no fuel exhaustion) once the fuel covers the
remaining epochs, for every data source. -/
theorem runIter_epochs_term {α : Type} (sz : α → Nat) (data : Nat → List α) (ne : Nat) :
    ∀ (fuel en bn s : Nat), ne ≤ en + fuel → 0 < fuel →
    ∃ ys, runIter sz (.epochs ne) data en bn s fuel = .ok ys ∨
      runIter sz (.epochs ne) data en bn s fuel = .err ys := by
  intro fuel
  induction fuel with
  | zero => intro en bn s _ h0; exact absurd h0 (by omega)
  | succ f ih =>
    intro en bn s hle _
    cases hdrain : drainEpoch sz none en (data en) bn s with
    | raised ys => exact ⟨ys, Or.inr (by simp [runIter, hdrain])⟩
    | stop ys => exact ⟨ys, Or.inl (by simp [runIter, hdrain])⟩
    | done ys bn2 s2 =>
      by_cases hemp : (data en).isEmpty
      · exact ⟨ys, Or.inr (by simp [runIter, hdrain, hemp])⟩
      · by_cases hstop : ne ≤ en + 1
        · exact ⟨ys, Or.inl (by simp [runIter, hdrain, hemp, hstop])⟩
        · obtain ⟨zs, hz⟩ := ih (en + 1) bn2 s2 (by omega) (by omega)
          cases hz with
          | inl h =>
            exact ⟨ys ++ zs, Or.inl (by simp [runIter, hdrain, hemp, hstop, h, RunRes.consAll])⟩
          | inr h =>
            exact ⟨ys ++ zs, Or.inr (by simp [runIter, hdrain, hemp, hstop, h, RunRes.consAll])⟩

/-- Batch mode terminates (no fuel exhaustion) once the fuel exceeds the
number of missing batches, for every data source: every completed epoch
either raises or advances `batch_num` by at least one. -/
theorem runIter_batches_term {α : Type} (sz : α → Nat) (data : Nat → List α) (nb : Nat) :
    ∀ (fuel en bn s : Nat), nb ≤ bn + fuel → 0 < fuel →
    ∃ ys, runIter sz (.batches nb) data en bn s fuel = .ok ys ∨
      runIter sz (.batches nb) data en bn s fuel = .err ys := by
  intro fuel
  induction fuel with
  | zero => intro en bn s _ h0; exact absurd h0 (by omega)
  | succ f ih =>
    intro en bn s hle _
    cases hdrain : drainEpoch sz (some nb) en (data en) bn s with
    | raised ys => exact ⟨ys, Or.inr (by simp [runIter, hdrain])⟩
    | stop ys => exact ⟨ys, Or.inl (by simp [runIter, hdrain])⟩
    | done ys bn2 s2 =>
      by_cases hemp : (data en).isEmpty
      · exact ⟨ys, Or.inr (by simp [runIter, hdrain, hemp])⟩
      · obtain ⟨b, rest, hbe⟩ : ∃ b rest, data en = b :: rest := by
          cases hde : data en with
          | nil => rw [hde] at hemp; exact absurd rfl hemp
          | cons x xs => exact ⟨x, xs, rfl⟩
        have h1 : bn + 1 < nb := drainEpoch_some_done_lt sz nb en b rest bn s ys bn2 s2
          (by rw [← hbe]; exact hdrain)
        have h2 : bn2 = bn + (data en).length :=
          drainEpoch_done_bn sz (some nb) en (data en) bn s ys bn2 s2 hdrain
        have hlen : 0 < (data en).length := by rw [hbe]; simp
        obtain ⟨zs, hz⟩ := ih (en + 1) bn2 s2 (by omega) (by omega)
        cases hz with
        | inl h =>
          exact ⟨ys ++ zs, Or.inl (by simp [runIter, hdrain, hemp, h, RunRes.consAll])⟩
        | inr h =>
          exact ⟨ys ++ zs, Or.inr (by simp [runIter, hdrain, hemp, h, RunRes.consAll])⟩

/-- Epoch mode with fuel exactly equal to the remaining epochs, on a data
source whose drains are non-empty with positive batch sizes, completes
normally and yields precisely the batches of those drains in order. -/
theorem runIter_epochs_complete {α : Type} (sz : α → Nat) (data : Nat → List α) (ne : Nat)
    (hne : ∀ k, data k ≠ []) (hsz : ∀ k, ∀ b ∈ data k, 0 < sz b) :
    ∀ (fuel en bn s : Nat), en + fuel = ne → 0 < fuel →
    ∃ ys, runIter sz (.epochs ne) data en bn s fuel = .ok ys ∧
      ys.map Prod.fst = ((List.range' en fuel).map data).flatten := by
  intro fuel
  induction fuel with
  | zero => intro en bn s _ h0; exact absurd h0 (by omega)
  | succ f ih =>
    intro en bn s htot _
    obtain ⟨ys, s2, hdrain, hmap⟩ := drainEpoch_none_eq sz en (data en) bn s (hsz en)
    have hemp : ¬ (data en).isEmpty = true := by
      cases hde : data en with
      | nil => exact absurd hde (hne en)
      | cons x xs => simp [hde]
    by_cases hf : f = 0
    · subst hf
      have hstop : ne ≤ en + 1 := by omega
      refine ⟨ys, by simp [runIter, hdrain, hemp, hstop], ?_⟩
      rw [hmap, List.range'_succ en 0 1]
      simp
    · have hstop : ¬ ne ≤ en + 1 := by omega
      obtain ⟨zs, hrun, hzmap⟩ := ih (en + 1) (bn + (data en).length) s2 (by omega) (by omega)
      refine ⟨ys ++ zs, by simp [runIter, hdrain, hemp, hstop, hrun, RunRes.consAll], ?_⟩
      rw [List.map_append, hmap, hzmap, List.range'_succ en f 1]
      simp

/-- Batch mode with target `nb`, starting below the target with enough
fuel, on a data source whose drains are non-empty with positive batch
sizes, completes normally having yielded exactly `nb - bn` more pairs. -/
theorem runIter_batches_complete {α : Type} (sz : α → Nat) (data : Nat → List α) (nb : Nat)
    (hne : ∀ k, data k ≠ []) (hsz : ∀ k, ∀ b ∈ data k, 0 < sz b) :
    ∀ (fuel en bn s : Nat), bn < nb → nb ≤ bn + fuel →
    ∃ ys, runIter sz (.batches nb) data en bn s fuel = .ok ys ∧ bn + ys.length = nb := by
  intro fuel
  induction fuel with
  | zero => intro en bn s h1 h2; exact absurd h1 (by omega)
  | succ f ih =>
    intro en bn s hlt hle
    have hspec := drainEpoch_some_spec sz nb en (data en) bn s (hsz en) hlt
    by_cases hcase : nb ≤ bn + (data en).length
    · obtain ⟨ys, hdrain, hys⟩ := hspec.1 hcase
      exact ⟨ys, by simp [runIter, hdrain], hys⟩
    · obtain ⟨ys, s2, hdrain, hyslen⟩ := hspec.2 (by omega)
      have hemp : ¬ (data en).isEmpty = true := by
        cases hde : data en with
        | nil => exact absurd hde (hne en)
        | cons x xs => simp [hde]
      have hlen : 0 < (data en).length := by
        cases hde : data en with
        | nil => exact absurd hde (hne en)
        | cons x xs => simp [hde]
      obtain ⟨zs, hrun, hz⟩ := ih (en + 1) (bn + (data en).length) s2 (by omega) (by omega)
      refine ⟨ys ++ zs, by simp [runIter, hdrain, hemp, hrun, RunRes.consAll], ?_⟩
      simp [hyslen]
      omega

/-- Claim C1: with `n_batches = B` (positive), iteration yields exactly `B`
`(batch, stats)` pairs and returns, however the data source partitions
batches across epochs; with `n_epochs = E` (positive), iteration yields
exactly the batches of `E` complete drains of the data source, in order. -/
theorem iterator_batch_and_epoch_counts {α : Type} (sz : α → Nat) (data : Nat → List α)
    (B E : Nat) (hB : 1 ≤ B) (hE : 1 ≤ E)
    (hne : ∀ k, data k ≠ []) (hsz : ∀ k, ∀ b ∈ data k, 0 < sz b) :
    (∃ ys, EpochOrBatchIteratorWithProgress.run sz (.batches B) data = .ok ys ∧
      ys.length = B)
    ∧ (∃ ys, EpochOrBatchIteratorWithProgress.run sz (.epochs E) data = .ok ys ∧
      ys.map Prod.fst = ((List.range E).map data).flatten) := by
  constructor
  · obtain ⟨ys, hrun, hlen⟩ :=
      runIter_batches_complete sz data B hne hsz (B + 1) 0 0 0 (by omega) (by omega)
    exact ⟨ys, by simpa [EpochOrBatchIteratorWithProgress.run, fuelFor] using hrun, by omega⟩
  · obtain ⟨ys, hrun, hmap⟩ :=
      runIter_epochs_complete sz data E hne hsz E 0 0 0 (by omega) (by omega)
    have hfuel : fuelFor (.epochs E) = E := by simp [fuelFor]; omega
    refine ⟨ys, ?_, by rw [hmap, List.range_eq_range']⟩
    rw [EpochOrBatchIteratorWithProgress.run, hfuel]
    exact hrun

/-- Witness for C1 on the data source that yields the single batch `[0]`
(of size 1) on every drain. -/
theorem iterator_batch_and_epoch_counts_witness :
    (∃ ys, EpochOrBatchIteratorWithProgress.run (fun _ : Nat => 1) (.batches 2)
        (fun _ => [0]) = .ok ys ∧ ys.length = 2)
    ∧ (∃ ys, EpochOrBatchIteratorWithProgress.run (fun _ : Nat => 1) (.epochs 2)
        (fun _ => [0]) = .ok ys ∧
      ys.map Prod.fst = ((List.range 2).map (fun _ => [0])).flatten) :=
  iterator_batch_and_epoch_counts (fun _ => 1) (fun _ => [0]) 2 2 (by omega) (by omega)
    (fun _ => by simp) (fun _ _ _ => Nat.one_pos)

/-- Claim C6: whenever the data source yields zero batches in the epoch the
loop is currently draining, iteration raises (`AssertionError`, the spec's
`DataContractViolation`) with no further yields; and for every data source
the run with its canonical fuel terminates, either normally or by raising —
it never exhausts the fuel (no infinite loop, no silent stop). -/
theorem iterator_empty_epoch_fatal_and_terminates {α : Type} (sz : α → Nat)
    (mode : IterMode) (data : Nat → List α) :
    (∀ en bn s fuel, 0 < fuel → data en = [] →
      runIter sz mode data en bn s fuel = .err [])
    ∧ (∃ ys, EpochOrBatchIteratorWithProgress.run sz mode data = .ok ys ∨
      EpochOrBatchIteratorWithProgress.run sz mode data = .err ys) := by
  constructor
  · intro en bn s fuel hf hde
    cases fuel with
    | zero => exact absurd hf (by omega)
    | succ f => simp [runIter, hde, drainEpoch]
  · cases mode with
    | epochs ne =>
      exact runIter_epochs_term sz data ne (max 1 ne) 0 0 0 (by omega) (by omega)
    | batches nb =>
      exact runIter_batches_term sz data nb (nb + 1) 0 0 0 (by omega) (by omega)

/-- Witness for C6 on the always-empty data source with `n_batches = 3`. -/
theorem iterator_empty_epoch_fatal_and_terminates_witness :
    runIter (fun _ : Nat => 1) (.batches 3) (fun _ => ([] : List Nat)) 0 0 0 4 = .err []
    ∧ (∃ ys, EpochOrBatchIteratorWithProgress.run (fun _ : Nat => 1) (.batches 3)
        (fun _ => ([] : List Nat)) = .ok ys ∨
      EpochOrBatchIteratorWithProgress.run (fun _ : Nat => 1) (.batches 3)
        (fun _ => ([] : List Nat)) = .err ys) := by
  have h := iterator_empty_epoch_fatal_and_terminates (fun _ : Nat => 1) (.batches 3)
    (fun _ => ([] : List Nat))
  exact ⟨h.1 0 0 0 4 (by omega) rfl, h.2⟩

/-- Claim C10: the batch-mode termination check runs only after a yield, so
with `n_batches = 0` and a first epoch containing at least one batch the
iterator yields exactly one pair before returning, not zero. -/
theorem iterator_n_batches_zero_yields_one {α : Type} (sz : α → Nat) (data : Nat → List α)
    (hne : data 0 ≠ []) (hsz : ∀ b ∈ data 0, 0 < sz b) :
    ∃ ys, EpochOrBatchIteratorWithProgress.run sz (.batches 0) data = .ok ys ∧
      ys.length = 1 := by
  obtain ⟨b, rest, hbe⟩ : ∃ b rest, data 0 = b :: rest := by
    cases hde : data 0 with
    | nil => exact absurd hde hne
    | cons x xs => exact ⟨x, xs, rfl⟩
  have hb : ¬ sz b = 0 := by have := hsz b (by rw [hbe]; simp); omega
  refine ⟨[(b, ⟨0, 1, sz b⟩)], ?_, rfl⟩
  simp [EpochOrBatchIteratorWithProgress.run, fuelFor, runIter, hbe, drainEpoch, hb]

/-- Witness for C10 on a data source whose first epoch is the single batch
`[5]` of size 5. -/
theorem iterator_n_batches_zero_yields_one_witness :
    ∃ ys, EpochOrBatchIteratorWithProgress.run (fun n : Nat => n) (.batches 0)
      (fun _ => [5]) = .ok ys ∧ ys.length = 1 :=
  iterator_n_batches_zero_yields_one (fun n => n) (fun _ => [5]) (by simp)
    (fun b hb => by simp at hb; subst hb; decide)

/-- Claim C4: constructing `EpochOrBatchIteratorWithProgress` with both or
neither of `n_epochs`/`n_batches` raises (`ValueError`, the spec's
`ConfigurationError`); with exactly one it succeeds. -/
theorem iterator_init_exactly_one (n_epochs n_batches : Option Nat) :
    (n_epochs.isSome = n_batches.isSome →
      EpochOrBatchIteratorWithProgress.initUseEpochs n_epochs n_batches =
        Except.error "Must provide exactly one of n_epochs and n_batches arguments.")
    ∧ (n_epochs.isSome ≠ n_batches.isSome →
      ∃ b, EpochOrBatchIteratorWithProgress.initUseEpochs n_epochs n_batches =
        Except.ok b) := by
  cases n_epochs <;> cases n_batches <;>
    simp [EpochOrBatchIteratorWithProgress.initUseEpochs]

/-- Witness for C4: both provided fails, exactly one provided succeeds. -/
theorem iterator_init_exactly_one_witness :
    EpochOrBatchIteratorWithProgress.initUseEpochs (some 1) (some 2) =
      Except.error "Must provide exactly one of n_epochs and n_batches arguments."
    ∧ ∃ b, EpochOrBatchIteratorWithProgress.initUseEpochs (some 1) none = Except.ok b :=
  ⟨(iterator_init_exactly_one (some 1) (some 2)).1 rfl,
    (iterator_init_exactly_one (some 1) none).2 (by simp)⟩

/-- A reward network capability (reward_nets.py `RewardNet`): for this
model, the differentiable `forward` pass mapping a batch of
(state, action, next_state, done) to a batch of rewards, one rational per
example.  `done` is the float-cast termination flag tensor. -/
structure RewardNetM (σ α : Type) where
  forward : List σ → List α → List σ → List ℚ → List ℚ

/-- `ShapedRewardNet` (reward_nets.py lines 435-506): a base net, a
potential (a callable from a batch of states to a batch of scalars;
`.flatten()` is the identity on our already-flat lists), and a discount
factor. -/
structure ShapedRewardNetM (σ α : Type) where
  base : RewardNetM σ α
  potential : List σ → List ℚ
  discount_factor : ℚ

/-- `ShapedRewardNet.forward` (reward_nets.py lines 471-506):
`new_shaping = (1 - done.float()) * potential(next_state)` and
`final_rew = base(...) + discount_factor * new_shaping - potential(state)`,
all elementwise over the batch. -/
def ShapedRewardNetM.forward {σ α : Type} (net : ShapedRewardNetM σ α)
    (state : List σ) (action : List α) (next_state : List σ) (done : List ℚ) :
    List ℚ :=
  let base_reward_net_output := net.base.forward state action next_state done
  let new_shaping_output := net.potential next_state
  let old_shaping_output := net.potential state
  let new_shaping := List.zipWith (fun d p => (1 - d) * p) done new_shaping_output
  List.zipWith (fun x o => x - o)
    (List.zipWith (fun b n2 => b + net.discount_factor * n2)
      base_reward_net_output new_shaping)
    old_shaping_output

/-- Elementwise access to a zip of two rational lists, in bounds. -/
theorem getD_zipWith (f : ℚ → ℚ → ℚ) :
    ∀ (l1 l2 : List ℚ) (i : Nat), i < l1.length → i < l2.length →
    (List.zipWith f l1 l2).getD i 0 = f (l1.getD i 0) (l2.getD i 0) := by
  intro l1
  induction l1 with
  | nil => intro l2 i h1 _; exact absurd h1 (by simp)
  | cons a as ih =>
    intro l2 i h1 h2
    cases l2 with
    | nil => exact absurd h2 (by simp)
    | cons b bs =>
      cases i with
      | zero => simp
      | succ j =>
        simp only [List.zipWith_cons_cons, List.getD_cons_succ]
        exact ih bs j (by simp at h1; omega) (by simp at h2; omega)

/-- Rational lists of equal length agreeing at every in-bounds index under
`getD` are equal. -/
theorem eq_of_getD_eq :
    ∀ (l1 l2 : List ℚ), l1.length = l2.length →
    (∀ i, i < l1.length → l1.getD i 0 = l2.getD i 0) → l1 = l2 := by
  intro l1
  induction l1 with
  | nil =>
    intro l2 hlen _
    cases l2 with
    | nil => rfl
    | cons b bs => simp at hlen
  | cons a as ih =>
    intro l2 hlen hi
    cases l2 with
    | nil => simp at hlen
    | cons b bs =>
      have h0 := hi 0 (by simp)
      simp only [List.getD_cons_zero] at h0
      have hrest := ih bs (by simp at hlen; omega)
        (fun i h => by have := hi (i + 1) (by simp; omega); simpa using this)
      rw [h0, hrest]

/-- Claim C2: `ShapedRewardNet.forward` computes, per example,
`base + discount_factor * (1 - done) * potential(next_state) -
potential(state)`; with `done` all-ones this reduces to
`base - potential(state)` (terminal next-state potential forced to zero),
and with `done` all-zeros to
`base + discount_factor * potential(next_state) - potential(state)`. -/
theorem shaped_reward_net_forward_spec {σ α : Type} (net : ShapedRewardNetM σ α)
    (state : List σ) (action : List α) (next_state : List σ) (done : List ℚ)
    (hb : (net.base.forward state action next_state done).length = state.length)
    (hps : (net.potential state).length = state.length)
    (hpns : (net.potential next_state).length = state.length)
    (hd : done.length = state.length) :
    (∀ i, i < state.length →
      (net.forward state action next_state done).getD i 0 =
        (net.base.forward state action next_state done).getD i 0
          + net.discount_factor * (1 - done.getD i 0)
            * (net.potential next_state).getD i 0
          - (net.potential state).getD i 0)
    ∧ (done = List.replicate state.length 1 →
      net.forward state action next_state done =
        List.zipWith (fun b p => b - p)
          (net.base.forward state action next_state done) (net.potential state))
    ∧ (done = List.replicate state.length 0 → ∀ i, i < state.length →
      (net.forward state action next_state done).getD i 0 =
        (net.base.forward state action next_state done).getD i 0
          + net.discount_factor * (net.potential next_state).getD i 0
          - (net.potential state).getD i 0) := by
  have hlen1 : (List.zipWith (fun d p => (1 - d) * p) done
      (net.potential next_state)).length = state.length := by
    simp [List.length_zipWith, hd, hpns]
  have hlen2 : (List.zipWith (fun b n2 => b + net.discount_factor * n2)
      (net.base.forward state action next_state done)
      (List.zipWith (fun d p => (1 - d) * p) done
        (net.potential next_state))).length = state.length := by
    simp [List.length_zipWith, hb, hd, hpns]
  have hmain : ∀ i, i < state.length →
      (net.forward state action next_state done).getD i 0 =
        (net.base.forward state action next_state done).getD i 0
          + net.discount_factor * (1 - done.getD i 0)
            * (net.potential next_state).getD i 0
          - (net.potential state).getD i 0 := by
    intro i hi
    simp only [ShapedRewardNetM.forward]
    rw [getD_zipWith _ _ _ i (by rw [hlen2]; exact hi) (by rw [hps]; exact hi),
      getD_zipWith _ _ _ i (by rw [hb]; exact hi) (by rw [hlen1]; exact hi),
      getD_zipWith _ _ _ i (by rw [hd]; exact hi) (by rw [hpns]; exact hi)]
    ring
  have hflen : (net.forward state action next_state done).length = state.length := by
    simp only [ShapedRewardNetM.forward]
    simp [List.length_zipWith, hb, hd, hpns, hps]
  refine ⟨hmain, ?_, ?_⟩
  · intro hrep
    apply eq_of_getD_eq _ _ (by simp [hflen, List.length_zipWith, hb, hps])
    intro i hi
    rw [hflen] at hi
    have hone : done.getD i 0 = 1 := by
      rw [hrep, List.getD_eq_getElem _ _ (by simpa using hi), List.getElem_replicate]
    rw [hmain i hi,
      getD_zipWith _ _ _ i (by rw [hb]; exact hi) (by rw [hps]; exact hi), hone]
    ring
  · intro hrep i hi
    have hzero : done.getD i 0 = 0 := by
      rw [hrep, List.getD_eq_getElem _ _ (by simpa using hi), List.getElem_replicate]
    rw [hmain i hi, hzero]
    ring

/-- A concrete shaped net over rational states: the base returns the state
batch itself, the potential is the identity, and the discount is 1/2. -/
def shapedWitnessNet : ShapedRewardNetM ℚ ℚ where
  base := { forward := fun s _ _ _ => s }
  potential := fun s => s
  discount_factor := 1 / 2

/-- Witness for C2 on a one-element batch with a terminal transition. -/
theorem shaped_reward_net_forward_spec_witness :
    (ShapedRewardNetM.forward shapedWitnessNet [3] [0] [5] [1]).getD 0 0 =
      (shapedWitnessNet.base.forward [3] [0] [5] [1]).getD 0 0
        + shapedWitnessNet.discount_factor * (1 - ([1] : List ℚ).getD 0 0)
          * (shapedWitnessNet.potential [5]).getD 0 0
        - (shapedWitnessNet.potential [3]).getD 0 0 := by
  have h := shaped_reward_net_forward_spec shapedWitnessNet [3] [0] [5] [1]
    rfl rfl rfl rfl
  exact h.1 0 (by decide)

/-- The arguments `BasicRewardNet.__init__` hands to `networks.build_mlp`
after merging: `hid_sizes` defaults to `(32, 32)`, may be overridden by
`kwargs`, while `in_size`, `out_size` and `squeeze_output` are forced
(reward_nets.py lines 271-282). -/
structure BuildMLPArgs where
  in_size : Nat
  out_size : Nat
  hid_sizes : List Nat
  squeeze_output : Bool
deriving Repr, DecidableEq

/-- Modelled from the spec: `networks.build_mlp` (imitation.util.networks)
belongs to this repository but is not under src/; per spec sections 4.4 and
4.7 it builds a feed-forward MLP with the given input width, hidden-layer
widths, and scalar (squeezed) output.  The model records the constructed
architecture. -/
def build_mlp (args : BuildMLPArgs) : BuildMLPArgs := args

/-- The configuration state `BasicRewardNet.__init__` leaves behind:
the four enable flags and the constructed MLP. -/
structure BasicRewardNetArch where
  use_state : Bool
  use_action : Bool
  use_next_state : Bool
  use_done : Bool
  mlp : BuildMLPArgs
deriving Repr, DecidableEq

/-- `BasicRewardNet.__init__` (reward_nets.py lines 228-284): accumulates
`combined_size` over the enabled inputs and builds the MLP.  `obs_dim` and
`act_dim` stand for `preprocessing.get_flattened_obs_dim` applied to the
observation and action space (an external stable-baselines3 helper);
`hid_sizes_kwarg` models the only `build_mlp` keyword the constructor does
not force. -/
def BasicRewardNet.init (obs_dim act_dim : Nat)
    (use_state use_action use_next_state use_done : Bool)
    (hid_sizes_kwarg : Option (List Nat)) : BasicRewardNetArch :=
  let combined_size := 0
  let combined_size := if use_state then combined_size + obs_dim else combined_size
  let combined_size := if use_action then combined_size + act_dim else combined_size
  let combined_size := if use_next_state then combined_size + obs_dim else combined_size
  let combined_size := if use_done then combined_size + 1 else combined_size
  { use_state, use_action, use_next_state, use_done,
    mlp := build_mlp {
      in_size := combined_size
      out_size := 1
      hid_sizes := hid_sizes_kwarg.getD [32, 32]
      squeeze_output := true } }

/-- Claim C7: the input width of the MLP built by `BasicRewardNet` is the
sum of the flattened dimensions of exactly the enabled components (state
and next_state each contribute the flattened observation dimension, action
the flattened action dimension, done contributes 1); with a single flag
enabled it degenerates to that single component's width. -/
theorem basic_reward_net_input_width (obs_dim act_dim : Nat)
    (use_state use_action use_next_state use_done : Bool)
    (hk : Option (List Nat)) :
    ((BasicRewardNet.init obs_dim act_dim use_state use_action use_next_state
        use_done hk).mlp.in_size
      = (if use_state then obs_dim else 0) + (if use_action then act_dim else 0)
        + (if use_next_state then obs_dim else 0) + (if use_done then 1 else 0))
    ∧ (BasicRewardNet.init obs_dim act_dim true false false false hk).mlp.in_size
      = obs_dim
    ∧ (BasicRewardNet.init obs_dim act_dim false true false false hk).mlp.in_size
      = act_dim
    ∧ (BasicRewardNet.init obs_dim act_dim false false true false hk).mlp.in_size
      = obs_dim
    ∧ (BasicRewardNet.init obs_dim act_dim false false false true hk).mlp.in_size
      = 1 := by
  refine ⟨?_, by simp [BasicRewardNet.init, build_mlp],
    by simp [BasicRewardNet.init, build_mlp],
    by simp [BasicRewardNet.init, build_mlp],
    by simp [BasicRewardNet.init, build_mlp]⟩
  cases use_state <;> cases use_action <;> cases use_next_state <;> cases use_done <;>
    simp [BasicRewardNet.init, build_mlp]

/-- `NormalizedRewardNet` (reward_nets.py lines 305-374): a base net and the
shape-preserving normalization module `rew_normalize_layer`. -/
structure NormalizedRewardNetM (σ α : Type) where
  base : RewardNetM σ α
  rew_normalize_layer : List ℚ → List ℚ

/-- `NormalizedRewardNet.forward` (reward_nets.py lines 367-374): calls
`self.base(state, action, next_state, done)` and nothing else. -/
def NormalizedRewardNetM.forward {σ α : Type} (net : NormalizedRewardNetM σ α)
    (state : List σ) (action : List α) (next_state : List σ) (done : List ℚ) :
    List ℚ :=
  net.base.forward state action next_state done

/-- `NormalizedRewardNet.predict_processed` (reward_nets.py lines 343-365):
the base net's gradient-free prediction passed through
`rew_normalize_layer` (value-wise the base prediction is the base forward;
eval-mode switching, no-grad and the tensor/numpy conversions are
abstracted away). -/
def NormalizedRewardNetM.predict_processed {σ α : Type}
    (net : NormalizedRewardNetM σ α) (state : List σ) (action : List α)
    (next_state : List σ) (done : List ℚ) : List ℚ :=
  net.rew_normalize_layer (net.base.forward state action next_state done)

/-- Claim C8: `NormalizedRewardNet.forward` is a pure pass-through to the
base net's forward on the same inputs; the normalization module touches
only the `predict_processed` path. -/
theorem normalized_reward_net_forward_passthrough {σ α : Type}
    (net : NormalizedRewardNetM σ α) (state : List σ) (action : List α)
    (next_state : List σ) (done : List ℚ) :
    NormalizedRewardNetM.forward net state action next_state done =
      net.base.forward state action next_state done
    ∧ NormalizedRewardNetM.predict_processed net state action next_state done =
      net.rew_normalize_layer (net.base.forward state action next_state done) :=
  ⟨rfl, rfl⟩

/-- `ConstantLRSchedule` (bc.py lines 41-55): a callable returning a fixed
learning rate. -/
structure ConstantLRSchedule where
  lr : ℚ
deriving Repr, DecidableEq

/-- Calling a `ConstantLRSchedule` ignores its argument (bc.py line 51). -/
def ConstantLRSchedule.call (sched : ConstantLRSchedule) (_progress : ℚ) : ℚ :=
  sched.lr

/-- `sys.float_info.max`, the IEEE-754 double `(2 - 2^-52) * 2^1023`,
used by `BC.__init__` for the loudly-unused learning-rate schedule
(bc.py line 236). -/
def sys_float_info_max : ℚ := 2 ^ 1024 - 2 ^ 971

/-- `Tensor.detach` severs the autograd graph; value-wise it is the
identity, which is all this embedding tracks. -/
def detach {T : Type} (x : T) : T := x

/-- Mean of a batch tensor (`Tensor.mean` over `List ℚ`). -/
def mean (l : List ℚ) : ℚ := l.sum / (l.length : ℚ)

/-- The policy capability `BC` depends on (spec section 6):
`evaluate_actions(obs, acts) -> (values, log_prob, entropy)` plus parameter
enumeration; each parameter tensor is modelled as its flattened entries. -/
structure PolicyModel (O A : Type) where
  evaluate_actions : List O → List A → List ℚ × List ℚ × List ℚ
  parameters : List (List ℚ)

/-- The `stats_dict` built by `BC._calculate_loss` (bc.py lines 334-342);
`prob_true_act` uses `th.exp`, supplied as the external function `texp`. -/
structure LossStats where
  neglogp : ℚ
  loss : ℚ
  prob_true_act : ℚ
  ent_loss_raw : ℚ
  ent_loss_term : ℚ
  l2_loss_raw : ℚ
  l2_loss_term : ℚ

/-- `BC._calculate_loss` (bc.py lines 300-344): detach the inputs, query
the policy, and combine `neglogp = -mean(log_prob)`,
`ent_term = -ent_weight * mean(entropy)` and
`l2_term = l2_weight * (sum of summed squared parameters) / 2` into the
loss, alongside the stats dict.  `texp` stands for `th.exp`. -/
def BC.calculate_loss {O A : Type} (texp : ℚ → ℚ) (pol : PolicyModel O A)
    (ent_weight l2_weight : ℚ) (obs : List O) (acts : List A) : ℚ × LossStats :=
  let obs := detach obs
  let acts := detach acts
  let ev := pol.evaluate_actions obs acts
  let log_prob := ev.2.1
  let entropy := ev.2.2
  let prob_true_act := mean (log_prob.map texp)
  let log_prob_mean := mean log_prob
  let ent_loss := mean entropy
  let l2_norms := pol.parameters.map (fun w => (w.map (fun x => x ^ 2)).sum)
  let l2_loss_raw := l2_norms.sum / 2
  let ent_term := -ent_weight * ent_loss
  let neglogp := -log_prob_mean
  let l2_term := l2_weight * l2_loss_raw
  let loss := neglogp + ent_term + l2_term
  (loss, { neglogp := neglogp, loss := loss, prob_true_act := prob_true_act,
           ent_loss_raw := ent_loss, ent_loss_term := ent_term,
           l2_loss_raw := l2_loss_raw, l2_loss_term := l2_term })

/-- Claim C3: the computed BC loss is exactly
`-mean(log_prob) - ent_weight * mean(entropy) + l2_weight * S / 2`, where
`log_prob`/`entropy` come from `policy.evaluate_actions` on the detached
observations and expert actions and `S` is the raw sum of squared L2 norms
of all policy parameters. -/
theorem bc_loss_decomposition {O A : Type} (texp : ℚ → ℚ) (pol : PolicyModel O A)
    (ent_weight l2_weight : ℚ) (obs : List O) (acts : List A) :
    (BC.calculate_loss texp pol ent_weight l2_weight obs acts).1 =
      -(mean (pol.evaluate_actions (detach obs) (detach acts)).2.1)
        - ent_weight * mean (pol.evaluate_actions (detach obs) (detach acts)).2.2
        + l2_weight
          * (pol.parameters.map (fun w => (w.map (fun x => x ^ 2)).sum)).sum / 2 := by
  simp only [BC.calculate_loss]
  ring

/-- The collaborator constructors `BC.__init__` receives (bc.py lines
185-192): the policy class (invoked on the spaces and the unused constant
schedule), the optimizer class (invoked on the policy's parameters and the
remaining keyword arguments), and the optional scheduler class. -/
structure BCDeps (Sp Pol Opt Sch : Type) where
  policy_class : Sp → Sp → ConstantLRSchedule → Pol
  optimizer_cls : Pol → List (String × ℚ) → Opt
  lr_scheduler_cls : Option (Opt → Sch)

/-- The attributes `BC.__init__` stores (bc.py lines 228-270).  The
`normalize_images` constructor argument appears in no field.  `device` and
the merged `policy_kwargs` dict are absorbed into the abstract
`policy_class` call. -/
structure BCState (Sp Pol Opt Sch Data T : Type) where
  action_space : Sp
  observation_space : Sp
  policy : Pol
  optimizer : Opt
  lr_scheduler : Option Sch
  has_epoch_end_step_callback : Bool
  expert_data_loader : Option Data
  ent_weight : ℚ
  l2_weight : ℚ
  augmentation_fn : T → T

set_option linter.unusedVariables false in
/-- `BC.__init__` (bc.py lines 180-270): first rejects `weight_decay` in
`optimizer_kwargs` (`ValueError`, the spec's `ConfigurationError`) before
constructing anything; otherwise builds the policy with the loudly-unused
constant schedule, the optimizer, the optional scheduler (registering the
epoch-end step callback exactly when a scheduler class is given), defaults
the augmentation function to the identity, and binds the expert data.
`optimizer_kwargs` is a keyword dict modelled as an association list. -/
def BC.init {Sp Pol Opt Sch Data T : Type} (deps : BCDeps Sp Pol Opt Sch)
    (observation_space action_space : Sp)
    (optimizer_kwargs : List (String × ℚ))
    (ent_weight l2_weight : ℚ)
    (augmentation_fn : Option (T → T))
    (normalize_images : Bool)
    (expert_data : Option Data) :
    Except String (BCState Sp Pol Opt Sch Data T) :=
  if optimizer_kwargs ≠ [] ∧ "weight_decay" ∈ optimizer_kwargs.map Prod.fst then
    Except.error "Use the parameter l2_weight instead of weight_decay."
  else
    let unused_lr_schedule : ConstantLRSchedule := ⟨sys_float_info_max⟩
    let policy := deps.policy_class observation_space action_space unused_lr_schedule
    let optimizer := deps.optimizer_cls policy optimizer_kwargs
    Except.ok {
      action_space := action_space
      observation_space := observation_space
      policy := policy
      optimizer := optimizer
      lr_scheduler := deps.lr_scheduler_cls.map (fun c => c optimizer)
      has_epoch_end_step_callback := deps.lr_scheduler_cls.isSome
      expert_data_loader := expert_data
      ent_weight := ent_weight
      l2_weight := l2_weight
      augmentation_fn := augmentation_fn.getD id }

/-- The observation path of one `BC.train` step (bc.py lines 426-440):
`preprocess_obs(obs, observation_space, normalize_images=True)` — the
literal `True` of line 430 — then the augmentation function, then the
image-scaling inversion (`* 255.0`) when the observation space is an image
Box.  Tensor conversion and `.contiguous()` are value-wise identities;
`preprocess_obs`, the image-space test and the scaling are external
collaborators passed as functions. -/
def BC.trainObsPipeline {Sp T : Type} (preprocess_obs : T → Sp → Bool → T)
    (augmentation_fn : T → T) (is_image_box : Sp → Bool) (scale255 : T → T)
    (observation_space : Sp) (obs : T) : T :=
  let obs_tensor := preprocess_obs obs observation_space true
  let obs_tensor := augmentation_fn obs_tensor
  if is_image_box observation_space then scale255 obs_tensor else obs_tensor

/-- Claim C5: `weight_decay` among the optimizer keyword arguments (with
nonzero `l2_weight`) makes `BC.__init__` fail with the `ValueError` (the
spec's `ConfigurationError`) before the policy, optimizer or any training
state is constructed — the error branch precedes every construction. -/
theorem bc_init_weight_decay_rejected {Sp Pol Opt Sch Data T : Type}
    (deps : BCDeps Sp Pol Opt Sch) (observation_space action_space : Sp)
    (optimizer_kwargs : List (String × ℚ)) (ent_weight l2_weight : ℚ)
    (augmentation_fn : Option (T → T)) (normalize_images : Bool)
    (expert_data : Option Data)
    (hwd : "weight_decay" ∈ optimizer_kwargs.map Prod.fst)
    (_hl2 : l2_weight ≠ 0) :
    BC.init deps observation_space action_space optimizer_kwargs ent_weight l2_weight
        augmentation_fn normalize_images expert_data =
      Except.error "Use the parameter l2_weight instead of weight_decay." := by
  have hne : optimizer_kwargs ≠ [] := by
    intro h
    rw [h] at hwd
    simp at hwd
  simp [BC.init, hne, hwd]

/-- Trivial collaborator constructors over `Unit`, for witnesses. -/
def bcWitnessDeps : BCDeps Unit Unit Unit Unit where
  policy_class := fun _ _ _ => ()
  optimizer_cls := fun _ _ => ()
  lr_scheduler_cls := none

/-- Witness for C5: `optimizer_kwargs = {weight_decay: 1}` with
`l2_weight = 1` is rejected. -/
theorem bc_init_weight_decay_rejected_witness :
    @BC.init Unit Unit Unit Unit Unit Unit bcWitnessDeps () ()
        [("weight_decay", 1)] 0 1 none true none =
      Except.error "Use the parameter l2_weight instead of weight_decay." :=
  bc_init_weight_decay_rejected bcWitnessDeps () () [("weight_decay", 1)] 0 1
    none true none (by simp) one_ne_zero

/-- Claim C9: the `normalize_images` constructor argument of `BC` is never
stored nor read — two constructions differing only in it produce identical
trainer state — and the training-step observation preprocessing only ever
invokes `preprocess_obs` with `normalize_images = True`: any two
preprocessing collaborators agreeing on the `True` flag give identical
training behaviour. -/
theorem bc_normalize_images_unused {Sp Pol Opt Sch Data T : Type}
    (deps : BCDeps Sp Pol Opt Sch) (observation_space action_space : Sp)
    (optimizer_kwargs : List (String × ℚ)) (ent_weight l2_weight : ℚ)
    (augmentation_fn : Option (T → T)) (expert_data : Option Data)
    (b1 b2 : Bool) :
    BC.init deps observation_space action_space optimizer_kwargs ent_weight
        l2_weight augmentation_fn b1 expert_data =
      BC.init deps observation_space action_space optimizer_kwargs ent_weight
        l2_weight augmentation_fn b2 expert_data
    ∧ ∀ (f g : T → Sp → Bool → T) (aug : T → T) (ib : Sp → Bool) (sc : T → T)
        (sp : Sp) (obs : T), (∀ o s, f o s true = g o s true) →
      BC.trainObsPipeline f aug ib sc sp obs =
        BC.trainObsPipeline g aug ib sc sp obs := by
  refine ⟨rfl, ?_⟩
  intro f g aug ib sc sp obs hfg
  simp [BC.trainObsPipeline, hfg]

/-- Witness for C9: flipping `normalize_images` leaves the constructed
state unchanged, and a preprocessing function that differs from another
only at `normalize_images = False` yields the same pipeline output. -/
theorem bc_normalize_images_unused_witness :
    @BC.init Unit Unit Unit Unit Unit ℚ bcWitnessDeps () () [] 0 0 none true none =
      @BC.init Unit Unit Unit Unit Unit ℚ bcWitnessDeps () () [] 0 0 none false none
    ∧ BC.trainObsPipeline (fun (o : ℚ) (_ : Unit) b => if b then o else o + 1) id
        (fun _ => false) id () 5 =
      BC.trainObsPipeline (fun (o : ℚ) (_ : Unit) _ => o) id
        (fun _ => false) id () 5 := by
  have h := @bc_normalize_images_unused Unit Unit Unit Unit Unit ℚ bcWitnessDeps
    () () [] 0 0 none none true false
  exact ⟨h.1, h.2 (fun o _ b => if b then o else o + 1) (fun o _ _ => o) id
    (fun _ => false) id () 5 (fun o s => by simp)⟩

end Imitation
